import Mathlib

/-!
Shallow embedding of the lbranch CLI (homebrew-linear-branch).

The repository links a git branch to a Linear issue: it classifies the CLI
input into an intent, resolves one issue against the tracker, updates the
issue (assignee and workflow state), and computes a deterministic branch
name.  The pure decision logic lives in src/index.ts (determineMode,
resolveIssue, main), src/linear.ts (API call shapes, getInProgressStateId),
src/git.ts (slugify, isAlreadyLinked) and src/ui.ts (prompt result shapes).

Strings are modelled through their character lists.  JavaScript regular
expressions used by the source are anchored patterns over simple character
classes; each one is embedded as a decidable matcher over character lists,
and the doc comment of every matcher names the regex it encodes.  Tracker
and git subprocess effects are modelled as an explicit trace of calls; user
prompts and API responses are supplied by an environment record.  Prompt
cancellation (which terminates the process with exit 0 in the source) is
outside the modelled runs: the environment supplies the value each prompt
returns.
-/

/-- ASCII lowercase letter test, the character class [a-z]. -/
def isLowAZ (c : Char) : Bool := 'a' ≤ c && c ≤ 'z'

/-- ASCII uppercase letter test, the character class [A-Z]. -/
def isUpAZ (c : Char) : Bool := 'A' ≤ c && c ≤ 'Z'

/-- ASCII digit test, the character class [0-9]. -/
def isDigit09 (c : Char) : Bool := '0' ≤ c && c ≤ '9'

/-- Characters kept by the replace step of slugify: the class [a-z0-9 ]
(the source removes every character matching /[^a-z0-9 ]/g). -/
def isKeepChar (c : Char) : Bool := isLowAZ c || isDigit09 c || c = ' '

/-- The character class [a-z0-9-]: the alphabet of slugify output and of
the branch-suffix part of the linked-branch regex in isAlreadyLinked. -/
def isSlugChar (c : Char) : Bool := isLowAZ c || isDigit09 c || c = '-'

/-- ASCII fragment of String.prototype.toLowerCase, applied pointwise by
slugify before any non-[a-z0-9 ] character is stripped.  (Non-ASCII input
characters are unchanged here; in the source they are lower-cased by
Unicode rules and then stripped by the following replace step.) -/
def lowerChar (c : Char) : Char :=
  if 'A' ≤ c && c ≤ 'Z' then Char.ofNat (c.toNat + 32) else c

/-- Split a character list into segments at every space, keeping empty
segments (one more segment than separators, so the result is never []). -/
def splitSp : List Char → List (List Char)
  | [] => [[]]
  | c :: cs =>
    if c = ' ' then [] :: splitSp cs
    else
      match splitSp cs with
      | [] => [[c]]
      | w :: ws => (c :: w) :: ws

/-- The non-empty segments of splitSp: exactly the maximal space-free runs.
For the space-normalised input slugify produces, this equals the source
pipeline .trim().split(/\s+/) up to the one degenerate case (the all-space
input), where the source yields the singleton list of the empty string and
this yields []; both join to the empty string. -/
def slugWords (cs : List Char) : List (List Char) :=
  (splitSp cs).filter (fun w => !w.isEmpty)

/-- Join word segments with a single hyphen, the .join("-") step. -/
def joinHyphen : List (List Char) → List Char
  | [] => []
  | [w] => w
  | w :: v :: ws => w ++ '-' :: joinHyphen (v :: ws)

/-- slugify from src/git.ts lines 3-11: lower-case, strip every character
outside [a-z0-9 ], trim, split on whitespace runs, keep the first 5 words,
join with "-". -/
def slugify (title : String) : String :=
  ⟨joinHyphen ((slugWords ((title.data.map lowerChar).filter isKeepChar)).take 5)⟩

/-- Result shape of isAlreadyLinked from src/git.ts: linked flag plus the
optional captured issue id. -/
structure LinkResult where
  linked : Bool
  issueId : Option String
deriving DecidableEq, Repr

/-- Matcher for the anchored regex of isAlreadyLinked,
 `[a-z]+/([A-Z]+-[0-9]+)-[a-z0-9-]+` anchored at both ends, returning the
captured group [A-Z]+-[0-9]+ on success.  Each quantified class is followed
by a literal the class excludes, so every `+` run in a successful match is
the maximal run and the matcher is an exact embedding of the backtracking
regex. -/
def matchLinked (cs : List Char) : Option (List Char) :=
  let g := cs.takeWhile isLowAZ
  let r0 := cs.dropWhile isLowAZ
  if g.isEmpty then none
  else if r0.head? = some '/' then
    let r1 := r0.tail
    let u := r1.takeWhile isUpAZ
    let r2 := r1.dropWhile isUpAZ
    if u.isEmpty then none
    else if r2.head? = some '-' then
      let r3 := r2.tail
      let d := r3.takeWhile isDigit09
      let r4 := r3.dropWhile isDigit09
      if d.isEmpty then none
      else if r4.head? = some '-' then
        let r5 := r4.tail
        if r5.isEmpty then none
        else if r5.all isSlugChar then some (u ++ '-' :: d) else none
      else none
    else none
  else none

/-- isAlreadyLinked from src/git.ts lines 39-45: match the branch name
against /^[a-z]+\/([A-Z]+-[0-9]+)-[a-z0-9-]+$/; on a match, linked with the
captured issue id, otherwise not linked. -/
def isAlreadyLinked (branch : String) : LinkResult :=
  match matchLinked branch.data with
  | some cap => ⟨true, some ⟨cap⟩⟩
  | none => ⟨false, none⟩

/-- The Mode tagged union from src/types.ts. -/
inductive Mode where
  | interactive : Mode
  | direct (issueId : String) : Mode
  | search (query : String) : Mode
  | create (title : Option String) : Mode
  | auto (arg : Option String) : Mode
deriving DecidableEq, Repr

/-- ASCII fragment of the JavaScript whitespace class \s, used by .trim()
and by the /\s+/ splits. -/
def isWsChar (c : Char) : Bool :=
  c = ' ' || c = '\t' || c = '\n' || c = '\r' || c.toNat = 11 || c.toNat = 12

/-- String.prototype.trim over the modelled whitespace class. -/
def trimWs (s : String) : String :=
  ⟨((s.data.dropWhile isWsChar).reverse.dropWhile isWsChar).reverse⟩

/-- The argument join of src/index.ts line 25: positionals.join(" ").trim(). -/
def joinedArg (positionals : List String) : String :=
  trimWs (String.intercalate " " positionals)

/-- determineMode from src/index.ts lines 28-40, over the already-joined
argument string (the module-level `arg`, which is trimmed, so the falsy
test `!arg` is the test for the empty string). -/
def determineMode (autoMode createMode : Bool) (arg : String) : Mode :=
  if autoMode then .auto (if arg = "" then none else some arg)
  else if createMode then .create (if arg = "" then none else some arg)
  else if arg = "" then .interactive
  else .search arg

/-- Mode classification as a function of the parsed flag values and the
positional arguments: the composition of the argument join (line 25) with
determineMode. -/
def classify (autoFlag cFlag : Bool) (positionals : List String) : Mode :=
  determineMode autoFlag cFlag (joinedArg positionals)

/-- The two tracked flag values of the parseArgs call in src/index.ts
lines 13-21: whether `values.auto === true` and `values.c === true`.
Unknown options accepted in non-strict mode (such as --create) land under
other keys of `values` and are irrelevant to both tests. -/
structure ParsedValues where
  auto : Bool
  c : Bool
deriving DecidableEq, Repr

/-- Prefix test over character data (String.startsWith). -/
def strStarts (pre s : String) : Bool := pre.data.isPrefixOf s.data

/-- Drop the first n characters of a string. -/
def strDrop (s : String) (n : Nat) : String := ⟨s.data.drop n⟩

/-- Effect of one long-option token `--name` or `--name=value` on the two
tracked values, following node:util parseArgs with strict:false and the
declared boolean options `auto` and `c`: a bare long option sets the value
to true; an inline `=value` stores the string, so the `=== true` test
becomes false; unknown names leave both tracked values unchanged. -/
def setLong (v : ParsedValues) (name : String) (hasInline : Bool) : ParsedValues :=
  if name = "auto" then { v with auto := !hasInline }
  else if name = "c" then { v with c := !hasInline }
  else v

/-- Effect of a short-option group `-xyz`: each character is one short
option; the declared short `c` sets `values.c` to true, every other
character lands under an untracked key. -/
def setShorts (v : ParsedValues) : List Char → ParsedValues
  | [] => v
  | ch :: rest => setShorts (if ch = 'c' then { v with c := true } else v) rest

/-- Token loop of node:util parseArgs for the configuration of
src/index.ts lines 13-21 (strict:false, allowPositionals:true, boolean
options `auto` and `c` with short `c`): `--` ends option processing,
`--name[=value]` is a long option (unknown names are absorbed as unknown
options, never positionals), `-chars` is a short group, a lone `-` and
every non-dash token are positionals. -/
def parseArgvGo (v : ParsedValues) (pos : List String) : List String → ParsedValues × List String
  | [] => (v, pos)
  | tok :: rest =>
    if tok = "--" then (v, pos ++ rest)
    else if strStarts "--" tok then
      let body := strDrop tok 2
      let name : String := ⟨body.data.takeWhile (fun ch => !(ch = '='))⟩
      parseArgvGo (setLong v name (body.data.contains '=')) pos rest
    else if strStarts "-" tok && !(tok = "-") then
      parseArgvGo (setShorts v (strDrop tok 1).data) pos rest
    else
      parseArgvGo v (pos ++ [tok]) rest

/-- parseArgs of src/index.ts applied to Bun.argv.slice(2): the tracked
flag values and the positional list. -/
def parseArgvModel (argv : List String) : ParsedValues × List String :=
  parseArgvGo ⟨false, false⟩ [] argv

/-- End-to-end classification of an argument vector: parse the flags and
positionals, then determine the mode exactly as the module top level of
src/index.ts does (lines 13-40). -/
def classifyArgv (argv : List String) : Mode :=
  let p := parseArgvModel argv
  classify p.1.auto p.1.c p.2

/-- Issue record as the resolver returns it: identifier and title (the
display-only fields state, assignee and url of the LinearIssue interface
are not consumed by any modelled decision and are omitted). -/
structure LinearIssue where
  identifier : String
  title : String
deriving DecidableEq, Repr

/-- A Linear team as returned by getTeams. -/
structure LinearTeam where
  id : String
  name : String
  key : String
deriving DecidableEq, Repr

/-- The cached team config (LbranchConfig in src/types.ts). -/
structure LbranchConfig where
  teamId : String
  teamKey : String
deriving DecidableEq, Repr

/-- A workflow state node of getInProgressStateId (src/linear.ts): id,
name, and the category field named `type` in the source. -/
structure WorkflowState where
  id : String
  name : String
  ty : String
deriving DecidableEq, Repr

/-- Substring test over character lists (the semantics of
RegExp.prototype.test for a plain-literal pattern). -/
def containsSeq (needle : List Char) : List Char → Bool
  | [] => needle.isEmpty
  | c :: rest => needle.isPrefixOf (c :: rest) || containsSeq needle rest

/-- The test /progress/i.test(name): the lower-cased name contains the
letters "progress". -/
def nameHasProgress (name : String) : Bool :=
  containsSeq "progress".data (name.data.map lowerChar)

/-- Pure core of getInProgressStateId, src/linear.ts lines 124-129: the
first state literally named "In Progress", else the first state whose
type is "started" and whose name contains "progress" case-insensitively;
its id, or none. -/
def pickInProgress (states : List WorkflowState) : Option String :=
  match states.find? (fun s => s.name == "In Progress") with
  | some s => some s.id
  | none =>
    match states.find? (fun s => s.ty == "started" && nameHasProgress s.name) with
    | some s => some s.id
    | none => none

/-- Matcher for the team-keyed issue-id regex of src/index.ts lines 89-91
and 227-229, new RegExp("^" + teamKey + "-\\d+$"): the query is exactly
the team key, a hyphen, and one or more digits.  (Team keys are plain
uppercase alphanumeric identifiers, so the interpolation contains no
regex metacharacters.) -/
def matchTeamIssue (teamKey : String) (q : String) : Bool :=
  teamKey.data.isPrefixOf q.data &&
    (match q.data.drop teamKey.data.length with
     | '-' :: ds => !ds.isEmpty && ds.all isDigit09
     | _ => false)

/-- Matcher for the generic issue-id regex /^[A-Z]+-\d+$/: one or more
uppercase letters, a hyphen, one or more digits.  The uppercase run is
followed by a literal the class excludes, so the maximal-run reading is
exact. -/
def matchGenericIssue (q : String) : Bool :=
  let u := q.data.takeWhile isUpAZ
  !u.isEmpty &&
    (match q.data.dropWhile isUpAZ with
     | '-' :: ds => !ds.isEmpty && ds.all isDigit09
     | _ => false)

/-- The issue-id regex test used by resolveIssue and by the refinement in
main: the team-keyed pattern when a team config is cached, the generic
pattern otherwise. -/
def issueReTest (cfg : Option LbranchConfig) (q : String) : Bool :=
  match cfg with
  | some c => matchTeamIssue c.teamKey q
  | none => matchGenericIssue q

/-- One tracker call or git subprocess call, in program order.  Config
file reads and terminal prompts are not calls in this trace. -/
inductive Call where
  | getTeams : Call
  | getIssueById (id : String) : Call
  | searchIssues (q : String) : Call
  | createIssue (title teamId : String) : Call
  | getViewerId : Call
  | getInProgressStateId (id : String) : Call
  | updateIssue (id : String) (assigneeId stateId : Option String) : Call
  | getIssueUrl (id : String) : Call
  | getAssignedTodos (first : Nat) : Call
  | getRecentUnassigned (first : Nat) : Call
  | saveTeamConfig (teamId teamKey : String) : Call
  | gitConfigName : Call
  | gitCurrentBranch : Call
  | gitPull (branch : String) : Call
  | gitCreateBranch (name fromBranch : String) : Call
  | gitRenameBranch (name : String) : Call
deriving DecidableEq, Repr

/-- Calls that hit the Linear API. -/
def isTrackerCall : Call → Bool
  | .getTeams => true
  | .getIssueById _ => true
  | .searchIssues _ => true
  | .createIssue _ _ => true
  | .getViewerId => true
  | .getInProgressStateId _ => true
  | .updateIssue _ _ _ => true
  | .getIssueUrl _ => true
  | .getAssignedTodos _ => true
  | .getRecentUnassigned _ => true
  | _ => false

/-- Git calls that mutate branch state: pull, branch creation, rename. -/
def isGitMutation : Call → Bool
  | .gitPull _ => true
  | .gitCreateBranch _ _ => true
  | .gitRenameBranch _ => true
  | _ => false

/-- Environment of one run: the config and credential state, the response
of every tracker query, and the value every terminal prompt returns.
Runs in which a prompt is cancelled (the process then exits 0 before any
further step) are outside the model. -/
structure Env where
  apiKey : Option String
  gitUserName : String
  gitNamePrompt : String
  currentBranch : String
  teamConfig : Option LbranchConfig
  teams : List LinearTeam
  teamSelect : String
  lookupById : String → Option LinearIssue
  searchResults : String → List LinearIssue
  pickChoice : String
  titleInput : String
  createResult : String → String → Option LinearIssue
  viewerId : String
  statesFor : String → List WorkflowState
  assignedTodos : List LinearIssue
  recentUnassigned : List LinearIssue
  menuInput : String
  menuSelect : String
  issueUrl : String → Option String

/-- Result of the pickIssue prompt of src/ui.ts: a picked issue or the
create sentinel. -/
inductive PickResult where
  | picked (i : LinearIssue) : PickResult
  | createSentinel : PickResult
deriving DecidableEq, Repr

/-- pickIssue from src/ui.ts lines 118-156: the option list is the issues
keyed "issue:" ++ identifier plus the "create" entry; the environment
supplies the selected value; an unknown selection is the
"Invalid selection" error. -/
def pickIssue (env : Env) (issues : List LinearIssue) : Except String PickResult :=
  if env.pickChoice = "create" then .ok .createSentinel
  else
    match issues.find? (fun i => ("issue:" ++ i.identifier) == env.pickChoice) with
    | some i => .ok (.picked i)
    | none => .error "Invalid selection"

/-- Deduplicate a list of issues by identifier, keeping first occurrences
(the `seen` set logic of showInteractiveMenu). -/
def dedupByIdGo (seen : List String) : List LinearIssue → List LinearIssue
  | [] => []
  | i :: rest =>
    if seen.contains i.identifier then dedupByIdGo seen rest
    else i :: dedupByIdGo (i.identifier :: seen) rest

/-- The combined menu issue list of showInteractiveMenu: deduplicated
todos first, then the recent issues not already seen, capped at 3. -/
def menuIssues (todos recent : List LinearIssue) : List LinearIssue :=
  let t := dedupByIdGo [] todos
  t ++ (recent.filter (fun i => !(t.any (fun j => j.identifier == i.identifier)))).take 3

/-- Result of the interactive menu of src/ui.ts. -/
inductive MenuResult where
  | searchQ (q : String) : MenuResult
  | createT (title : String) : MenuResult
  | pick (i : LinearIssue) : MenuResult
deriving DecidableEq, Repr

/-- showInteractiveMenu from src/ui.ts lines 45-116: a non-empty trimmed
text input short-circuits to search; otherwise the select over the menu
issues plus the "action:create" entry decides. -/
def showInteractiveMenu (env : Env) (todos recent : List LinearIssue) : Except String MenuResult :=
  let query := trimWs env.menuInput
  if !(query = "") then .ok (.searchQ query)
  else if env.menuSelect = "action:create" then .ok (.createT "")
  else
    match (menuIssues todos recent).find? (fun i => ("issue:" ++ i.identifier) == env.menuSelect) with
    | some i => .ok (.pick i)
    | none => .error "Invalid selection"

/-- Prepend already-issued calls to the trace of a continuation result. -/
def withTrace (pre : List Call) (r : Except String LinearIssue × List Call) :
    Except String LinearIssue × List Call :=
  (r.1, pre ++ r.2)

/-- resolveTeamId from src/index.ts lines 43-65: return the cached config,
or fetch the teams, take the first team when there is exactly one or the
run is unattended (an empty team list is the crash of reading teams[0].id,
modelled as an error), otherwise select by the prompt; then save. -/
def resolveTeamId (env : Env) (autoMode : Bool) : Except String LbranchConfig × List Call :=
  match env.teamConfig with
  | some cfg => (.ok cfg, [])
  | none =>
    if env.teams.length = 1 || autoMode then
      match env.teams with
      | [] => (.error "Cannot read team from empty team list", [.getTeams])
      | t :: _ => (.ok ⟨t.id, t.key⟩, [.getTeams, .saveTeamConfig t.id t.key])
    else
      match env.teams.find? (fun t => t.id == env.teamSelect) with
      | none => (.error "Invalid team selection", [.getTeams])
      | some t => (.ok ⟨t.id, t.key⟩, [.getTeams, .saveTeamConfig t.id t.key])

/-- doCreateIssue from src/index.ts lines 68-81: take the given title, or
prompt unless unattended; an absent or empty title is the "Title is
required" error; then resolve the team id and create the issue (a create
response without an identifier is the "Failed to create issue" error). -/
def doCreateIssue (env : Env) (autoMode : Bool) (title : Option String) :
    Except String LinearIssue × List Call :=
  let issueTitle : Option String :=
    match title with
    | some t => some t
    | none => if autoMode then none else some env.titleInput
  match issueTitle with
  | none => (.error "Title is required", [])
  | some t =>
    if t = "" then (.error "Title is required", [])
    else
      match resolveTeamId env autoMode with
      | (.error e, tr) => (.error e, tr)
      | (.ok cfg, tr) =>
        match env.createResult t cfg.teamId with
        | none => (.error "Failed to create issue", tr ++ [.createIssue t cfg.teamId])
        | some issue => (.ok issue, tr ++ [.createIssue t cfg.teamId])

/-- resolveIssue from src/index.ts lines 84-195, with the issue-id regex
built from the cached team config (lines 85-91) and the per-mode behavior
of the switch: direct looks up by id, create delegates to doCreateIssue,
auto requires an argument and dispatches on the regex, search dispatches
on the regex and otherwise searches and goes through the picker, and
interactive fetches the two menu lists and dispatches on the menu
result. -/
def resolveIssue (env : Env) (autoMode : Bool) : Mode → Except String LinearIssue × List Call
  | .direct issueId =>
    (match env.lookupById issueId with
     | none => (.error ("Issue " ++ issueId ++ " not found in Linear"), [.getIssueById issueId])
     | some i => (.ok i, [.getIssueById issueId]))
  | .create title => doCreateIssue env autoMode title
  | .auto argOpt =>
    (match argOpt with
     | none => (.error "--auto requires an issue ID or description", [])
     | some a =>
       if issueReTest env.teamConfig a then
         match env.lookupById a with
         | none => (.error ("Issue " ++ a ++ " not found in Linear"), [.getIssueById a])
         | some i => (.ok i, [.getIssueById a])
       else doCreateIssue env autoMode (some a))
  | .search q =>
    if issueReTest env.teamConfig q then
      match env.lookupById q with
      | none => (.error ("Issue " ++ q ++ " not found in Linear"), [.getIssueById q])
      | some i => (.ok i, [.getIssueById q])
    else
      let issues := env.searchResults q
      if issues.isEmpty then
        match pickIssue env [] with
        | .error e => (.error e, [.searchIssues q])
        | .ok .createSentinel => withTrace [.searchIssues q] (doCreateIssue env autoMode none)
        | .ok (.picked i) => (.ok i, [.searchIssues q])
      else
        match pickIssue env issues with
        | .error e => (.error e, [.searchIssues q])
        | .ok .createSentinel => withTrace [.searchIssues q] (doCreateIssue env autoMode none)
        | .ok (.picked i) => (.ok i, [.searchIssues q])
  | .interactive =>
    let pre : List Call := [.getAssignedTodos 3, .getRecentUnassigned 6]
    match showInteractiveMenu env env.assignedTodos env.recentUnassigned with
    | .error e => (.error e, pre)
    | .ok (.pick i) => (.ok i, pre)
    | .ok (.searchQ q) =>
      (match pickIssue env (env.searchResults q) with
       | .error e => (.error e, pre ++ [.searchIssues q])
       | .ok .createSentinel => withTrace (pre ++ [.searchIssues q]) (doCreateIssue env autoMode none)
       | .ok (.picked i) => (.ok i, pre ++ [.searchIssues q]))
    | .ok (.createT t) =>
      withTrace pre (doCreateIssue env autoMode (if t = "" then none else some t))

/-- The search-to-direct refinement of main, src/index.ts lines 224-233:
a search whose query matches the issue-id regex becomes direct; every
other mode passes through unchanged. -/
def refineMode (cfg : Option LbranchConfig) : Mode → Mode
  | .search q => if issueReTest cfg q then .direct q else .search q
  | m => m

/-- firstNameOf: fullName.split(/\s+/)[0].toLowerCase() over an already
trimmed name (src/config.ts line 71). -/
def firstNameOf (fullName : String) : String :=
  ⟨(fullName.data.takeWhile (fun ch => !isWsChar ch)).map lowerChar⟩

/-- getGitName from src/config.ts lines 65-84: the first name of the
trimmed `git config user.name` output, else "ci" when unattended, else
the empty string (to be replaced by the prompt). -/
def getGitNameModel (env : Env) (autoMode : Bool) : String :=
  let fullName := trimWs env.gitUserName
  if !(fullName = "") then firstNameOf fullName
  else if autoMode then "ci" else ""

/-- The git name main ends up with (src/index.ts lines 203-206): the
getGitName result, or the prompt answer when it is empty and the run is
attended. -/
def mainGitName (env : Env) (autoMode : Bool) : String :=
  let g := getGitNameModel env autoMode
  if g = "" && !autoMode then env.gitNamePrompt else g

/-- The issue-update step of main, src/index.ts lines 239-251: fetch the
viewer id and the in-progress state id, then always send the update call;
the assignee field is present exactly when the viewer id is truthy and
the state field exactly when the state id is truthy. -/
def updateStepCalls (issueId : String) (viewerId : String) (inProgressId : Option String) :
    List Call :=
  [.getViewerId, .getInProgressStateId issueId,
   .updateIssue issueId
     (if viewerId = "" then none else some viewerId)
     (match inProgressId with
      | none => none
      | some s => if s = "" then none else some s)]

/-- The branch name of src/index.ts lines 254-255:
gitName/identifier-slug. -/
def mkBranchName (gitName identifier title : String) : String :=
  gitName ++ "/" ++ identifier ++ "-" ++ slugify title

/-- main from src/index.ts lines 198-283 as a trace semantics: load the
credential (its absence is the ConfigError), read the git name (prompting
if needed), read the current branch, short-circuit when it is already
linked, otherwise classify and refine the mode, resolve the issue, always
send the issue update, then create (after a pull) or rename the branch
and fetch the issue url for the summary. -/
def runMain (env : Env) (autoMode createMode : Bool) (arg : String) :
    Except String Unit × List Call :=
  match env.apiKey with
  | none => (.error "LINEAR_API_KEY not found.", [])
  | some _ =>
    let gitName := mainGitName env autoMode
    let pre : List Call := [.gitConfigName, .gitCurrentBranch]
    if (isAlreadyLinked env.currentBranch).linked then (.ok (), pre)
    else
      let mode := refineMode env.teamConfig (determineMode autoMode createMode arg)
      match resolveIssue env autoMode mode with
      | (.error e, tr) => (.error e, pre ++ tr)
      | (.ok issue, tr) =>
        let upd := updateStepCalls issue.identifier env.viewerId
          (pickInProgress (env.statesFor issue.identifier))
        let branchName := mkBranchName gitName issue.identifier issue.title
        let gitCalls : List Call :=
          if env.currentBranch = "main" || env.currentBranch = "master" then
            [.gitPull env.currentBranch, .gitCreateBranch branchName env.currentBranch]
          else [.gitRenameBranch branchName]
        (.ok (), pre ++ tr ++ upd ++ gitCalls ++ [.getIssueUrl issue.identifier])

/-- Process exit code of a finished run: 0 on success, 1 on any error
(the catch handler of src/index.ts lines 285-292). -/
def exitCodeOf : Except String Unit → Nat
  | .ok _ => 0
  | .error _ => 1

/-! ### Helper lemmas about the string machinery -/

theorem sdata_append (a b : String) : (a ++ b).data = a.data ++ b.data := rfl

theorem takeWhile_all_append {p : Char → Bool} {a : List Char} {x : Char}
    (b : List Char) (ha : ∀ c ∈ a, p c = true) (hx : p x = false) :
    (a ++ x :: b).takeWhile p = a := by
  induction a with
  | nil => simp [List.takeWhile_cons, hx]
  | cons y ys ih =>
    have hy : p y = true := ha y (by simp)
    have := ih (fun c hc => ha c (by simp [hc]))
    simp [List.takeWhile_cons, hy, this]

theorem dropWhile_all_append {p : Char → Bool} {a : List Char} {x : Char}
    (b : List Char) (ha : ∀ c ∈ a, p c = true) (hx : p x = false) :
    (a ++ x :: b).dropWhile p = x :: b := by
  induction a with
  | nil => simp [List.dropWhile_cons, hx]
  | cons y ys ih =>
    have hy : p y = true := ha y (by simp)
    have := ih (fun c hc => ha c (by simp [hc]))
    simp [List.dropWhile_cons, hy, this]

theorem mem_splitSp {cs w : List Char} (hw : w ∈ splitSp cs) :
    ∀ c ∈ w, c ∈ cs ∧ ¬ c = ' ' := by
  induction cs generalizing w with
  | nil =>
    simp [splitSp] at hw
    subst hw; simp
  | cons x xs ih =>
    by_cases hx : x = ' '
    · simp [splitSp, hx] at hw
      rcases hw with h | h
      · subst h; simp
      · intro c hc
        have := ih h c hc
        exact ⟨by simp [this.1], this.2⟩
    · cases hsp : splitSp xs with
      | nil =>
        simp [splitSp, hx, hsp] at hw
        subst hw
        intro c hc
        simp at hc
        subst hc
        exact ⟨by simp, hx⟩
      | cons w0 ws =>
        simp [splitSp, hx, hsp] at hw
        rcases hw with h | h
        · subst h
          intro c hc
          rcases List.mem_cons.mp hc with h1 | h1
          · subst h1; exact ⟨by simp, hx⟩
          · have hw0 : w0 ∈ splitSp xs := by rw [hsp]; exact List.mem_cons_self w0 ws
            have := ih hw0 c h1
            exact ⟨by simp [this.1], this.2⟩
        · intro c hc
          have hwm : w ∈ splitSp xs := by rw [hsp]; exact List.mem_cons_of_mem _ h
          have := ih hwm c hc
          exact ⟨by simp [this.1], this.2⟩

theorem splitSp_nospace {cs : List Char} (h : ∀ c ∈ cs, ¬ c = ' ') :
    splitSp cs = [cs] := by
  induction cs with
  | nil => rfl
  | cons x xs ih =>
    have hx : ¬ x = ' ' := h x (by simp)
    have hr := ih (fun c hc => h c (by simp [hc]))
    simp [splitSp, hx, hr]

theorem mem_joinHyphen {ws : List (List Char)} {c : Char} (h : c ∈ joinHyphen ws) :
    c = '-' ∨ ∃ w ∈ ws, c ∈ w := by
  induction ws with
  | nil => simp [joinHyphen] at h
  | cons w rest ih =>
    cases rest with
    | nil =>
      simp [joinHyphen] at h
      exact Or.inr ⟨w, by simp, h⟩
    | cons v vs =>
      simp only [joinHyphen, List.mem_append, List.mem_cons] at h
      rcases h with h | h | h
      · exact Or.inr ⟨w, by simp, h⟩
      · exact Or.inl h
      · rcases ih h with h1 | ⟨w1, hw1, hc1⟩
        · exact Or.inl h1
        · exact Or.inr ⟨w1, List.mem_cons_of_mem _ hw1, hc1⟩

theorem map_self_of {f : Char → Char} {l : List Char} (h : ∀ c ∈ l, f c = c) :
    l.map f = l := by
  induction l with
  | nil => rfl
  | cons x xs ih =>
    simp [h x (by simp), ih (fun c hc => h c (by simp [hc]))]

theorem slugWords_mem {cs w : List Char} (hw : w ∈ slugWords cs) :
    w ≠ [] ∧ ∀ c ∈ w, c ∈ cs ∧ ¬ c = ' ' := by
  have h := List.mem_filter.mp hw
  refine ⟨?_, fun c hc => mem_splitSp h.1 c hc⟩
  have := h.2
  simp only [Bool.not_eq_true'] at this
  exact fun he => by simp [he] at this

theorem keep_not_space_slug {c : Char} (h1 : isKeepChar c = true) (h2 : ¬ c = ' ') :
    isSlugChar c = true := by
  have hd : decide (c = ' ') = false := decide_eq_false h2
  simp only [isKeepChar, hd, Bool.or_false] at h1
  rcases Bool.or_eq_true_iff.mp h1 with h | h
  · simp [isSlugChar, h]
  · simp [isSlugChar, h]

theorem slug_chars {s : String} : ∀ c ∈ (slugify s).data, isSlugChar c = true := by
  intro c hc
  have hj : c ∈ joinHyphen ((slugWords ((s.data.map lowerChar).filter isKeepChar)).take 5) := hc
  rcases mem_joinHyphen hj with h | ⟨w, hw, hcw⟩
  · subst h; decide
  · have hw' : w ∈ slugWords ((s.data.map lowerChar).filter isKeepChar) :=
      List.take_subset _ _ hw
    have hmem := (slugWords_mem hw').2 c hcw
    have hkeep : isKeepChar c = true := (List.mem_filter.mp hmem.1).2
    exact keep_not_space_slug hkeep hmem.2

theorem slugChar_cases {c : Char} (h : isSlugChar c = true) :
    isLowAZ c = true ∨ isDigit09 c = true ∨ c = '-' := by
  simp only [isSlugChar, Bool.or_eq_true, decide_eq_true_eq] at h
  rcases h with h | h
  · rcases h with h1 | h1
    · exact Or.inl h1
    · exact Or.inr (Or.inl h1)
  · exact Or.inr (Or.inr h)

theorem lowerChar_fix {c : Char} (h : isSlugChar c = true) : lowerChar c = c := by
  unfold lowerChar
  have hcond : ('A' ≤ c && c ≤ 'Z') = false := by
    rcases slugChar_cases h with h1 | h1 | rfl
    · simp only [isLowAZ, Bool.and_eq_true, decide_eq_true_eq] at h1
      have hz : ¬ c ≤ 'Z' := fun hc => absurd (le_trans h1.1 hc) (by decide)
      simp [hz]
    · simp only [isDigit09, Bool.and_eq_true, decide_eq_true_eq] at h1
      have ha : ¬ 'A' ≤ c := fun hc => absurd (le_trans hc h1.2) (by decide)
      simp [ha]
    · decide
  simp [hcond]

theorem keep_eq_nothyphen {c : Char} (h : isSlugChar c = true) :
    isKeepChar c = !(c == '-') := by
  rcases slugChar_cases h with h1 | h1 | rfl
  · have hne : ¬ c = '-' := by
      intro he; subst he
      exact absurd h1 (by decide)
    simp [isKeepChar, h1, hne]
  · have hne : ¬ c = '-' := by
      intro he; subst he
      exact absurd h1 (by decide)
    simp [isKeepChar, h1, hne]
  · decide

theorem slugChar_ne_space {c : Char} (h : isSlugChar c = true) : ¬ c = ' ' := by
  intro he; subst he; exact absurd h (by decide)

theorem slugChar_ne_slash {c : Char} (h : isSlugChar c = true) : ¬ c = '/' := by
  intro he; subst he; exact absurd h (by decide)

theorem upChar_facts {c : Char} (h : isUpAZ c = true) :
    ¬ c = '-' ∧ ¬ c = '/' := by
  constructor
  · intro he; subst he; exact absurd h (by decide)
  · intro he; subst he; exact absurd h (by decide)

theorem digitChar_facts {c : Char} (h : isDigit09 c = true) :
    ¬ c = '-' ∧ ¬ c = '/' := by
  constructor
  · intro he; subst he; exact absurd h (by decide)
  · intro he; subst he; exact absurd h (by decide)

theorem lowChar_ne_slash {c : Char} (h : isLowAZ c = true) : ¬ c = '/' := by
  intro he; subst he; exact absurd h (by decide)

theorem head?_tail_eq {l : List Char} {a : Char} (h : l.head? = some a) :
    l = a :: l.tail := by
  cases l with
  | nil => simp at h
  | cons x xs =>
    simp only [List.head?_cons, Option.some.injEq] at h
    subst h; rfl

theorem split_at_head {p : Char → Bool} {l : List Char} {a : Char}
    (h : (l.dropWhile p).head? = some a) :
    ∃ r, l = l.takeWhile p ++ a :: r ∧ l.dropWhile p = a :: r := by
  refine ⟨(l.dropWhile p).tail, ?_, head?_tail_eq h⟩
  conv_lhs => rw [← List.takeWhile_append_dropWhile p l]
  rw [head?_tail_eq h]
  simp

theorem matchLinked_sound {g u d t : List Char}
    (hg : g ≠ []) (hgl : ∀ c ∈ g, isLowAZ c = true)
    (hu : u ≠ []) (hul : ∀ c ∈ u, isUpAZ c = true)
    (hd : d ≠ []) (hdl : ∀ c ∈ d, isDigit09 c = true)
    (ht : t ≠ []) (htl : ∀ c ∈ t, isSlugChar c = true) :
    matchLinked (g ++ '/' :: (u ++ '-' :: (d ++ '-' :: t))) = some (u ++ '-' :: d) := by
  have e1 := takeWhile_all_append (u ++ '-' :: (d ++ '-' :: t)) hgl
    (by decide : isLowAZ '/' = false)
  have e2 := dropWhile_all_append (u ++ '-' :: (d ++ '-' :: t)) hgl
    (by decide : isLowAZ '/' = false)
  have e3 := takeWhile_all_append (d ++ '-' :: t) hul (by decide : isUpAZ '-' = false)
  have e4 := dropWhile_all_append (d ++ '-' :: t) hul (by decide : isUpAZ '-' = false)
  have e5 := takeWhile_all_append t hdl (by decide : isDigit09 '-' = false)
  have e6 := dropWhile_all_append t hdl (by decide : isDigit09 '-' = false)
  simp only [matchLinked, e1, e2, e3, e4, e5, e6, List.head?_cons, List.tail_cons]
  simp [List.isEmpty_iff, hg, hu, hd, ht, List.all_eq_true.mpr htl]

theorem matchLinked_complete {cs cap : List Char} (h : matchLinked cs = some cap) :
    ∃ g u d t, cs = g ++ '/' :: (u ++ '-' :: (d ++ '-' :: t)) ∧
      g ≠ [] ∧ (∀ c ∈ g, isLowAZ c = true) ∧
      u ≠ [] ∧ (∀ c ∈ u, isUpAZ c = true) ∧
      d ≠ [] ∧ (∀ c ∈ d, isDigit09 c = true) ∧
      t ≠ [] ∧ (∀ c ∈ t, isSlugChar c = true) ∧
      cap = u ++ '-' :: d := by
  unfold matchLinked at h
  dsimp only at h
  split at h
  · simp at h
  · rename_i hg
    split at h
    · rename_i hslash
      split at h
      · simp at h
      · rename_i hu
        split at h
        · rename_i hdash1
          split at h
          · simp at h
          · rename_i hd
            split at h
            · rename_i hdash2
              split at h
              · simp at h
              · rename_i ht5
                split at h
                · rename_i hall
                  obtain ⟨R1, hcs1, hd1⟩ := split_at_head hslash
                  simp only [hd1, List.tail_cons] at hu hdash1 hd hdash2 ht5 hall h
                  obtain ⟨R3, hr1eq, hd2⟩ := split_at_head hdash1
                  simp only [hd2, List.tail_cons] at hd hdash2 ht5 hall h
                  obtain ⟨R5, hr3eq, hd3⟩ := split_at_head hdash2
                  simp only [hd3, List.tail_cons] at ht5 hall h
                  refine ⟨cs.takeWhile isLowAZ, R1.takeWhile isUpAZ,
                    R3.takeWhile isDigit09, R5, ?_, ?_, ?_, ?_, ?_, ?_, ?_, ?_, ?_, ?_⟩
                  · conv_lhs => rw [hcs1]
                    conv_lhs => rw [hr1eq]
                    conv_lhs => rw [hr3eq]
                  · exact fun he => hg (by simp [he])
                  · exact fun c hc => List.mem_takeWhile_imp hc
                  · exact fun he => hu (by simp [he])
                  · exact fun c hc => List.mem_takeWhile_imp hc
                  · exact fun he => hd (by simp [he])
                  · exact fun c hc => List.mem_takeWhile_imp hc
                  · exact fun he => ht5 (by simp [he])
                  · exact fun c hc => List.all_eq_true.mp hall c hc
                  · exact (Option.some.inj h).symm
                · simp at h
            · simp at h
        · simp at h
    · simp at h

theorem keep_not_space_word {c : Char} (h1 : isKeepChar c = true) (h2 : ¬ c = ' ') :
    (isLowAZ c || isDigit09 c) = true := by
  have hd : decide (c = ' ') = false := decide_eq_false h2
  simp only [isKeepChar, hd, Bool.or_false] at h1
  exact h1

theorem slug_reslug (s : String) :
    slugify (slugify s) = ⟨(slugify s).data.filter (fun c => !(c == '-'))⟩ := by
  have ho : ∀ c ∈ (slugify s).data, isSlugChar c = true := slug_chars
  have hmap : (slugify s).data.map lowerChar = (slugify s).data :=
    map_self_of (fun c hc => lowerChar_fix (ho c hc))
  have hfil : (slugify s).data.filter isKeepChar
      = (slugify s).data.filter (fun c => !(c == '-')) :=
    List.filter_congr (fun c hc => keep_eq_nothyphen (ho c hc))
  have ho' : ∀ c ∈ (slugify s).data.filter (fun c => !(c == '-')), ¬ c = ' ' :=
    fun c hc => slugChar_ne_space (ho c (List.mem_of_mem_filter hc))
  have hsp := splitSp_nospace ho'
  show (⟨joinHyphen ((slugWords (((slugify s).data.map lowerChar).filter isKeepChar)).take 5)⟩ : String) = _
  rw [hmap, hfil]
  unfold slugWords
  rw [hsp]
  by_cases he : (slugify s).data.filter (fun c => !(c == '-')) = []
  · rw [he]; rfl
  · have hne : (((slugify s).data.filter (fun c => !(c == '-'))).isEmpty) = false := by
      simp [List.isEmpty_iff, he]
    simp [List.filter_cons, hne, joinHyphen]

theorem append_eq_of_first {α : Type} {x : α} {a b c d : List α}
    (h : a ++ x :: b = c ++ x :: d) (hxa : x ∉ a) (hxc : x ∉ c) : a = c ∧ b = d := by
  induction a generalizing c with
  | nil =>
    cases c with
    | nil =>
      simp only [List.nil_append] at h
      exact ⟨rfl, (List.cons.inj h).2⟩
    | cons y ys =>
      simp only [List.nil_append, List.cons_append] at h
      have h1 := (List.cons.inj h).1
      exact absurd (h1 ▸ List.mem_cons_self y ys) hxc
  | cons z zs ih =>
    cases c with
    | nil =>
      simp only [List.cons_append, List.nil_append] at h
      have h1 := (List.cons.inj h).1
      exact absurd (h1 ▸ List.mem_cons_self z zs) (fun hm => hxa (h1 ▸ hm))
    | cons y ys =>
      simp only [List.cons_append] at h
      have h1 := (List.cons.inj h).1
      have h2 := (List.cons.inj h).2
      have hr := ih h2 (fun hm => hxa (List.mem_cons_of_mem z hm))
        (fun hm => hxc (List.mem_cons_of_mem y hm))
      exact ⟨by rw [h1, hr.1], hr.2⟩

theorem first_occ {α : Type} [DecidableEq α] {x : α} {l : List α} (h : x ∈ l) :
    ∃ s t, l = s ++ x :: t ∧ x ∉ s := by
  induction l with
  | nil => simp at h
  | cons y ys ih =>
    by_cases hxy : x = y
    · exact ⟨[], ys, by rw [hxy]; rfl, by simp⟩
    · have h' : x ∈ ys := by
        rcases List.mem_cons.mp h with h1 | h1
        · exact absurd h1 hxy
        · exact h1
      rcases ih h' with ⟨s, t, he, hns⟩
      exact ⟨y :: s, t, by rw [he]; rfl, by simp [hxy, hns]⟩

/-! ### Claim theorems -/

/-- Claim C4 counterexample: with no flags and the single positional
argument "" (a positional argument is present), the code classifies the
mode as interactive, not search("") as the claimed decision order
dictates, because determineMode tests the joined-and-trimmed string
rather than the emptiness of the positional list. -/
theorem C4_counterexample :
    classify false false [""] = Mode.interactive
    ∧ classify false false [""] ≠ Mode.search "" := by
  decide

/-- Claim C4 (amended): mode classification is a pure total function of
the flags and positional arguments in first-match-wins order — auto flag
yields auto(joined-trimmed args or undefined), else create flag yields
create(joined-trimmed args or undefined), else interactive exactly when
the joined-and-trimmed positionals are empty (in particular for
whitespace-only positionals, not merely when there are none), else
search(joined-trimmed args); auto takes precedence over create, and the
four concrete examples of the claim hold. -/
theorem C4_classify_order :
    (∀ (c : Bool) (pos : List String), classify true c pos
        = Mode.auto (if joinedArg pos = "" then none else some (joinedArg pos)))
    ∧ (∀ pos : List String, classify false true pos
        = Mode.create (if joinedArg pos = "" then none else some (joinedArg pos)))
    ∧ (∀ pos : List String, joinedArg pos = "" → classify false false pos = Mode.interactive)
    ∧ (∀ pos : List String, joinedArg pos ≠ "" →
        classify false false pos = Mode.search (joinedArg pos))
    ∧ classify true false ["ENG-1"] = Mode.auto (some "ENG-1")
    ∧ classify false false [] = Mode.interactive
    ∧ classify false true [] = Mode.create none
    ∧ classify false false ["fix", "bug"] = Mode.search "fix bug" := by
  refine ⟨fun c pos => rfl, fun pos => rfl, ?_, ?_, by decide, by decide, by decide, by decide⟩
  · intro pos h
    simp [classify, determineMode, h]
  · intro pos h
    simp [classify, determineMode, h]

/-- Claim C4 witness: the amended interactive clause applied to the
whitespace-only positional list. -/
theorem C4_classify_order_witness :
    classify false false [" "] = Mode.interactive :=
  C4_classify_order.2.2.1 [" "] (by decide)

/-- Claim C3 counterexample: the argument vector ["--create"] does not
classify as a create intent; parseArgs declares only the options auto and
c, so --create is absorbed as an unknown option in non-strict mode
(leaving no positionals) and the run classifies as interactive. -/
theorem C3_counterexample :
    classifyArgv ["--create"] = Mode.interactive
    ∧ classifyArgv ["--create"] ≠ Mode.create none := by
  decide

/-- Claim C3 (amended): only the short flag -c (the declared option named
c) forces create-issue mode: whenever the parsed values have the c flag
set and the auto flag unset, the classified intent is
create(joined-trimmed args or undefined); --create is not a declared
option — it is absorbed as an unknown flag, never a positional, and never
sets the c flag, so ["--create"] classifies as interactive. -/
theorem C3_short_flag_only :
    (∀ (argv : List String) (v : ParsedValues) (pos : List String),
        parseArgvModel argv = (v, pos) → v.auto = false → v.c = true →
        classifyArgv argv
          = Mode.create (if joinedArg pos = "" then none else some (joinedArg pos)))
    ∧ classifyArgv ["-c"] = Mode.create none
    ∧ classifyArgv ["-c", "Fix", "bug"] = Mode.create (some "Fix bug")
    ∧ parseArgvModel ["--create"] = (⟨false, false⟩, [])
    ∧ classifyArgv ["--create"] = Mode.interactive := by
  refine ⟨?_, by decide, by decide, by decide, by decide⟩
  intro argv v pos hp ha hc
  simp [classifyArgv, hp, classify, determineMode, ha, hc]

/-- Claim C3 witness: the amended create clause applied to the -c vector. -/
theorem C3_short_flag_only_witness :
    classifyArgv ["-c", "fix", "bug"]
      = Mode.create (if joinedArg ["fix", "bug"] = "" then none
          else some (joinedArg ["fix", "bug"])) :=
  C3_short_flag_only.1 ["-c", "fix", "bug"] ⟨false, true⟩ ["fix", "bug"] (by decide) rfl rfl

/-- Claim C5: slugify lower-cases, strips every character outside
[a-z0-9 ], trims, splits on whitespace runs, keeps at most the first 5
words and joins them with "-"; it is total and deterministic (it is a
function), maps "" to "", maps "Fix Login Bug!!" to "fix-login-bug", and
every output is the hyphen-join of at most 5 non-empty words over
[a-z0-9], so it matches the anchored pattern [a-z0-9-]* with at most 5
hyphen-separated words. -/
theorem C5_slugify_spec :
    slugify "Fix Login Bug!!" = "fix-login-bug"
    ∧ slugify "" = ""
    ∧ (∀ s : String, ∀ c ∈ (slugify s).data, isSlugChar c = true)
    ∧ (∀ s : String, ∃ ws : List (List Char), ws.length ≤ 5
        ∧ (∀ w ∈ ws, w ≠ [] ∧ ∀ c ∈ w, (isLowAZ c || isDigit09 c) = true)
        ∧ (slugify s).data = joinHyphen ws) := by
  refine ⟨rfl, rfl, fun s c hc => slug_chars c hc, fun s => ?_⟩
  refine ⟨(slugWords ((s.data.map lowerChar).filter isKeepChar)).take 5,
    List.length_take_le 5 _, ?_, rfl⟩
  intro w hw
  have hw' : w ∈ slugWords ((s.data.map lowerChar).filter isKeepChar) :=
    List.take_subset _ _ hw
  have hm := slugWords_mem hw'
  refine ⟨hm.1, fun c hc => ?_⟩
  have h2 := hm.2 c hc
  exact keep_not_space_word (List.mem_filter.mp h2.1).2 h2.2

/-- Claim C5 witness: the character-class clause applied to the example
input at the character f. -/
theorem C5_slugify_spec_witness : isSlugChar 'f' = true :=
  C5_slugify_spec.2.2.1 "Fix Login Bug!!" 'f' (by decide)

/-- Claim C6 counterexample: slugify is not idempotent on its own output;
on "a b" it yields "a-b", and reapplying it strips the hyphen (a hyphen
is outside the kept class [a-z0-9 ]) giving "ab". -/
theorem C6_counterexample :
    slugify (slugify "a b") ≠ slugify "a b"
    ∧ slugify "a b" = "a-b" ∧ slugify (slugify "a b") = "ab" := by
  decide

/-- Claim C6 (amended): reapplying slugify to its own output removes the
hyphens and collapses the slug to a single word: slugify (slugify s)
equals slugify s with every hyphen filtered out, so slugify is idempotent
exactly on the inputs whose slug contains no hyphen (at most one word). -/
theorem C6_slugify_reapply :
    (∀ s : String, slugify (slugify s)
        = ⟨(slugify s).data.filter (fun c => !(c == '-'))⟩)
    ∧ (∀ s : String, '-' ∉ (slugify s).data → slugify (slugify s) = slugify s) := by
  refine ⟨slug_reslug, fun s h => ?_⟩
  rw [slug_reslug s]
  have hf : (slugify s).data.filter (fun c => !(c == '-')) = (slugify s).data :=
    List.filter_eq_self.mpr (fun a ha => by
      simp [show ¬ a = '-' from fun he => h (he ▸ ha)])
  rw [hf]

/-- Claim C6 witness: the idempotence clause applied to a one-word
input. -/
theorem C6_slugify_reapply_witness :
    slugify (slugify "fix") = slugify "fix" :=
  C6_slugify_reapply.2 "fix" (by decide)

/-- Claim C7: isAlreadyLinked is a pure total function; every string of
the shape lowercase-run / uppercase-run - digit-run - non-empty
[a-z0-9-]-run is detected as linked with the captured PREFIX-NUMBER
group as issue id; every string it reports as linked has that shape with
that capture (so every non-matching string is reported not linked); a
not-linked result carries no issue id; and the two examples hold. -/
theorem C7_detectLink_spec :
    (∀ g u d t : List Char,
        g ≠ [] → (∀ c ∈ g, isLowAZ c = true) →
        u ≠ [] → (∀ c ∈ u, isUpAZ c = true) →
        d ≠ [] → (∀ c ∈ d, isDigit09 c = true) →
        t ≠ [] → (∀ c ∈ t, isSlugChar c = true) →
        isAlreadyLinked ⟨g ++ '/' :: (u ++ '-' :: (d ++ '-' :: t))⟩
          = ⟨true, some ⟨u ++ '-' :: d⟩⟩)
    ∧ (∀ s : String, (isAlreadyLinked s).linked = true →
        ∃ g u d t, s.data = g ++ '/' :: (u ++ '-' :: (d ++ '-' :: t)) ∧
          g ≠ [] ∧ (∀ c ∈ g, isLowAZ c = true) ∧
          u ≠ [] ∧ (∀ c ∈ u, isUpAZ c = true) ∧
          d ≠ [] ∧ (∀ c ∈ d, isDigit09 c = true) ∧
          t ≠ [] ∧ (∀ c ∈ t, isSlugChar c = true) ∧
          (isAlreadyLinked s).issueId = some ⟨u ++ '-' :: d⟩)
    ∧ (∀ s : String, (isAlreadyLinked s).linked = false →
        (isAlreadyLinked s).issueId = none)
    ∧ isAlreadyLinked "alice/ENG-142-fix-login" = ⟨true, some "ENG-142"⟩
    ∧ isAlreadyLinked "main" = ⟨false, none⟩ := by
  refine ⟨?_, ?_, ?_, by decide, by decide⟩
  · intro g u d t hg hgl hu hul hd hdl ht htl
    unfold isAlreadyLinked
    rw [show (⟨g ++ '/' :: (u ++ '-' :: (d ++ '-' :: t))⟩ : String).data
        = g ++ '/' :: (u ++ '-' :: (d ++ '-' :: t)) from rfl]
    rw [matchLinked_sound hg hgl hu hul hd hdl ht htl]
  · intro s hl
    unfold isAlreadyLinked at hl ⊢
    cases hm : matchLinked s.data with
    | none => rw [hm] at hl; simp at hl
    | some cap =>
      rcases matchLinked_complete hm with ⟨g, u, d, t, he, h1, h2, h3, h4, h5, h6, h7, h8, hcap⟩
      exact ⟨g, u, d, t, he, h1, h2, h3, h4, h5, h6, h7, h8, by subst hcap; rfl⟩
  · intro s hl
    unfold isAlreadyLinked at hl ⊢
    cases hm : matchLinked s.data with
    | none => rfl
    | some cap => rw [hm] at hl; simp at hl

/-- Claim C7 witness: the soundness clause applied to the example
decomposition alice / ENG - 142 - fix. -/
theorem C7_detectLink_spec_witness :
    isAlreadyLinked ⟨"alice".data ++ '/' :: ("ENG".data ++ '-' :: ("142".data ++ '-' :: "fix".data))⟩
      = ⟨true, some ⟨"ENG".data ++ '-' :: "142".data⟩⟩ :=
  C7_detectLink_spec.1 "alice".data "ENG".data "142".data "fix".data
    (by decide) (by decide) (by decide) (by decide)
    (by decide) (by decide) (by decide) (by decide)

/-- Claim C8: in-progress state resolution returns the id of the first
state literally named "In Progress" when one exists; otherwise the id of
the first state whose type is "started" and whose name contains
"progress" case-insensitively; otherwise no state id — and in that case
the orchestrator update step omits the state field while still applying
the assignee field exactly when a viewer id is available. -/
theorem C8_inProgress_resolution :
    (∀ states : List WorkflowState,
        (∃ s ∈ states, s.name = "In Progress") →
        ∃ s ∈ states, s.name = "In Progress" ∧ pickInProgress states = some s.id)
    ∧ (∀ (states : List WorkflowState) (s : WorkflowState),
        (∀ t ∈ states, t.name ≠ "In Progress") →
        states.find? (fun t => t.ty == "started" && nameHasProgress t.name) = some s →
        pickInProgress states = some s.id ∧ s ∈ states ∧ s.ty = "started"
          ∧ nameHasProgress s.name = true)
    ∧ (∀ states : List WorkflowState,
        (∀ t ∈ states, t.name ≠ "In Progress") →
        (∀ t ∈ states, ¬ (t.ty = "started" ∧ nameHasProgress t.name = true)) →
        pickInProgress states = none)
    ∧ (∀ issueId viewerId : String,
        updateStepCalls issueId viewerId none
          = [.getViewerId, .getInProgressStateId issueId,
             .updateIssue issueId (if viewerId = "" then none else some viewerId) none]) := by
  refine ⟨?_, ?_, ?_, fun issueId viewerId => rfl⟩
  · intro states hex
    have hsome : (states.find? (fun s => s.name == "In Progress")).isSome = true := by
      rw [List.find?_isSome]
      rcases hex with ⟨s, hs, hn⟩
      exact ⟨s, hs, by simp [hn]⟩
    rcases Option.isSome_iff_exists.mp hsome with ⟨s, hfind⟩
    refine ⟨s, List.mem_of_find?_eq_some hfind, ?_, ?_⟩
    · have := List.find?_some hfind
      simpa using this
    · simp [pickInProgress, hfind]
  · intro states s hno hfind
    have hnone : states.find? (fun t => t.name == "In Progress") = none :=
      List.find?_eq_none.mpr (fun t ht => by simp [hno t ht])
    have hp := List.find?_some hfind
    simp only [Bool.and_eq_true, beq_iff_eq] at hp
    exact ⟨by simp [pickInProgress, hnone, hfind], List.mem_of_find?_eq_some hfind,
      hp.1, hp.2⟩
  · intro states hno hno2
    have hnone : states.find? (fun t => t.name == "In Progress") = none :=
      List.find?_eq_none.mpr (fun t ht => by simp [hno t ht])
    have hnone2 : states.find? (fun t => t.ty == "started" && nameHasProgress t.name) = none := by
      refine List.find?_eq_none.mpr (fun t ht => ?_)
      have := hno2 t ht
      intro hb
      simp only [Bool.and_eq_true, beq_iff_eq] at hb
      exact this ⟨hb.1, hb.2⟩
    simp [pickInProgress, hnone, hnone2]

/-- Claim C8 witness: the no-match clause applied to a state list with
neither an "In Progress" state nor a started state naming progress. -/
theorem C8_inProgress_resolution_witness :
    pickInProgress [⟨"s1", "Done", "completed"⟩] = none :=
  C8_inProgress_resolution.2.2.1 [⟨"s1", "Done", "completed"⟩] (by decide) (by decide)

/-- The issue used by the concrete run environments below. -/
def issue1 : LinearIssue := ⟨"ENG-1", "Fix login"⟩

/-- A concrete environment: cached team ENG, issue ENG-1 known to the
tracker, falsy viewer id, a team whose workflow has no in-progress style
state, and a current branch that is neither linked nor main/master. -/
def env0 : Env where
  apiKey := some "k"
  gitUserName := "Alice Smith"
  gitNamePrompt := "alice"
  currentBranch := "feature-x"
  teamConfig := some ⟨"team1", "ENG"⟩
  teams := []
  teamSelect := ""
  lookupById := fun id => if id = "ENG-1" then some issue1 else none
  searchResults := fun _ => []
  pickChoice := ""
  titleInput := ""
  createResult := fun _ _ => none
  viewerId := ""
  statesFor := fun _ => [⟨"st1", "Done", "completed"⟩]
  assignedTodos := []
  recentUnassigned := []
  menuInput := ""
  menuSelect := ""
  issueUrl := fun _ => none

/-- The environment env0 with a current branch that already matches the
linked pattern. -/
def envL : Env := { env0 with currentBranch := "alice/ENG-142-fix-login" }

/-- Claim C2: when the query matches the issue-id pattern built from the
cached team key (or the generic pattern with no cached team), resolving
search(query) is identical to resolving direct(query) — same result
including the not-found failure, the trace is exactly the one
lookup-by-id call and contains no search call — the refinement step
promotes exactly such a search to direct, and promotion of a matching
search to direct is the only intent transition refineMode ever makes. -/
theorem C2_search_direct_equiv :
    (∀ (env : Env) (autoMode : Bool) (q : String),
        issueReTest env.teamConfig q = true →
        resolveIssue env autoMode (.search q) = resolveIssue env autoMode (.direct q)
        ∧ (resolveIssue env autoMode (.search q)).2 = [Call.getIssueById q]
        ∧ (∀ call ∈ (resolveIssue env autoMode (.search q)).2,
            ∀ q' : String, call ≠ .searchIssues q'))
    ∧ (∀ (cfg : Option LbranchConfig) (q : String),
        issueReTest cfg q = true → refineMode cfg (.search q) = .direct q)
    ∧ (∀ (cfg : Option LbranchConfig) (m : Mode),
        refineMode cfg m = m
        ∨ ∃ q, m = .search q ∧ issueReTest cfg q = true ∧ refineMode cfg m = .direct q) := by
  refine ⟨?_, ?_, ?_⟩
  · intro env a q h
    have ht : (resolveIssue env a (.search q)).2 = [Call.getIssueById q] := by
      cases hl : env.lookupById q <;> simp [resolveIssue, h, hl]
    refine ⟨?_, ht, ?_⟩
    · cases hl : env.lookupById q <;> simp [resolveIssue, h, hl]
    · intro call hc q'
      rw [ht] at hc
      simp at hc
      subst hc
      simp
  · intro cfg q h
    simp [refineMode, h]
  · intro cfg m
    cases m with
    | interactive => exact Or.inl rfl
    | direct i => exact Or.inl rfl
    | create t => exact Or.inl rfl
    | auto a => exact Or.inl rfl
    | search q =>
      by_cases h : issueReTest cfg q = true
      · exact Or.inr ⟨q, rfl, h, by simp [refineMode, h]⟩
      · exact Or.inl (by simp [refineMode, h])

/-- Claim C2 witness: the equivalence and the promotion applied to env0
and the matching query ENG-1. -/
theorem C2_search_direct_equiv_witness :
    resolveIssue env0 false (Mode.search "ENG-1") = resolveIssue env0 false (Mode.direct "ENG-1")
    ∧ refineMode env0.teamConfig (Mode.search "ENG-1") = Mode.direct "ENG-1" :=
  ⟨(C2_search_direct_equiv.1 env0 false "ENG-1" (by decide)).1,
   C2_search_direct_equiv.2.1 env0.teamConfig "ENG-1" (by decide)⟩

/-- Claim C1 counterexample: a concrete run that reaches the update step
with a falsy viewer id and no resolvable in-progress state still issues
the updateIssue call, with both fields omitted — refuting the claim that
the update call is skipped when both are absent. -/
theorem C1_counterexample :
    env0.viewerId = ""
    ∧ pickInProgress (env0.statesFor "ENG-1") = none
    ∧ Call.updateIssue "ENG-1" none none ∈ (runMain env0 false false "ENG-1").2 := by
  refine ⟨rfl, rfl, ?_⟩
  decide

/-- Claim C1 (amended): every run that reaches the issue-update step
sends the updateIssue call unconditionally; the assignee field is present
exactly when the viewer id is truthy and the state field exactly when an
in-progress state id was resolved, so with both absent an empty update
(both fields omitted) is still sent. -/
theorem C1_update_always_sent (env : Env) (autoMode createMode : Bool) (arg : String)
    (k : String) (issue : LinearIssue) (tr : List Call)
    (hkey : env.apiKey = some k)
    (hnl : (isAlreadyLinked env.currentBranch).linked = false)
    (hres : resolveIssue env autoMode
        (refineMode env.teamConfig (determineMode autoMode createMode arg))
      = (.ok issue, tr)) :
    Call.updateIssue issue.identifier
        (if env.viewerId = "" then none else some env.viewerId)
        (match pickInProgress (env.statesFor issue.identifier) with
         | none => none
         | some s => if s = "" then none else some s)
      ∈ (runMain env autoMode createMode arg).2 := by
  unfold runMain
  rw [hkey]
  simp only [hnl, Bool.false_eq_true, if_false]
  rw [hres]
  simp [updateStepCalls]

/-- Claim C1 witness: the amended statement applied to the concrete run
of the counterexample, where both fields are absent. -/
theorem C1_update_always_sent_witness :
    Call.updateIssue issue1.identifier
        (if env0.viewerId = "" then none else some env0.viewerId)
        (match pickInProgress (env0.statesFor issue1.identifier) with
         | none => none
         | some s => if s = "" then none else some s)
      ∈ (runMain env0 false false "ENG-1").2 :=
  C1_update_always_sent env0 false false "ENG-1" "k" issue1 [Call.getIssueById "ENG-1"]
    rfl (by decide) rfl

/-- Claim C9: when the current branch already matches the linked pattern,
a run that has loaded its credential short-circuits: it returns
successfully (exit code 0) having issued only the two git reads (config
name and current branch) — no tracker call and no git branch-mutation
call (no pull, no branch creation, no rename) is in the trace. -/
theorem C9_linked_short_circuit (env : Env) (autoMode createMode : Bool) (arg : String)
    (k : String) (hkey : env.apiKey = some k)
    (hl : (isAlreadyLinked env.currentBranch).linked = true) :
    runMain env autoMode createMode arg = (.ok (), [.gitConfigName, .gitCurrentBranch])
    ∧ exitCodeOf (runMain env autoMode createMode arg).1 = 0
    ∧ ∀ call ∈ (runMain env autoMode createMode arg).2,
        isTrackerCall call = false ∧ isGitMutation call = false := by
  have hrun : runMain env autoMode createMode arg
      = (.ok (), [.gitConfigName, .gitCurrentBranch]) := by
    unfold runMain
    rw [hkey]
    simp [hl]
  refine ⟨hrun, by rw [hrun]; rfl, ?_⟩
  intro call hc
  rw [hrun] at hc
  simp at hc
  rcases hc with rfl | rfl
  · exact ⟨rfl, rfl⟩
  · exact ⟨rfl, rfl⟩

/-- Claim C9 witness: the short-circuit applied to the concrete linked
environment envL. -/
theorem C9_linked_short_circuit_witness :
    runMain envL false false "" = (.ok (), [.gitConfigName, .gitCurrentBranch]) :=
  (C9_linked_short_circuit envL false false "" "k" rfl (by decide)).1

theorem not_mem_of_class {p : Char → Bool} {l : List Char} {x : Char}
    (hall : ∀ c ∈ l, p c = true) (hx : p x = false) : x ∉ l := by
  intro hm
  rw [hall x hm] at hx
  exact absurd hx (by simp)

theorem mkBranchName_data (gitName : String) (u d : List Char) (title : String) :
    (mkBranchName gitName ⟨u ++ '-' :: d⟩ title).data
      = gitName.data ++ '/' :: (u ++ '-' :: (d ++ '-' :: (slugify title).data)) := by
  show (gitName.data ++ "/".data ++ (u ++ '-' :: d) ++ "-".data ++ (slugify title).data)
      = gitName.data ++ '/' :: (u ++ '-' :: (d ++ '-' :: (slugify title).data))
  simp [List.append_assoc]

/-- Claim C10: round-trip between branch naming and link detection — for
a git name of one or more lowercase letters, an identifier
UPPERCASE-DIGITS, and a title with a non-empty slug, the computed branch
name gitName/identifier-slug is detected as linked with issueId equal to
the identifier; with an empty slug the branch name is not detected as
linked; and with any character outside [a-z] in the git name it is not
detected as linked either. -/
theorem C10_roundtrip (gitName : String) (u d : List Char) (title : String) :
    (gitName.data ≠ [] → (∀ c ∈ gitName.data, isLowAZ c = true) →
      u ≠ [] → (∀ c ∈ u, isUpAZ c = true) →
      d ≠ [] → (∀ c ∈ d, isDigit09 c = true) →
      slugify title ≠ "" →
      isAlreadyLinked (mkBranchName gitName ⟨u ++ '-' :: d⟩ title)
        = ⟨true, some ⟨u ++ '-' :: d⟩⟩)
    ∧ (gitName.data ≠ [] → (∀ c ∈ gitName.data, isLowAZ c = true) →
        u ≠ [] → (∀ c ∈ u, isUpAZ c = true) →
        d ≠ [] → (∀ c ∈ d, isDigit09 c = true) →
        slugify title = "" →
        (isAlreadyLinked (mkBranchName gitName ⟨u ++ '-' :: d⟩ title)).linked = false)
    ∧ (u ≠ [] → (∀ c ∈ u, isUpAZ c = true) →
        d ≠ [] → (∀ c ∈ d, isDigit09 c = true) →
        (∃ c ∈ gitName.data, ¬ isLowAZ c = true) →
        (isAlreadyLinked (mkBranchName gitName ⟨u ++ '-' :: d⟩ title)).linked = false) := by
  refine ⟨?_, ?_, ?_⟩
  · intro hg hgl hu hul hd hdl hslug
    have hslug' : (slugify title).data ≠ [] := fun he => hslug (String.ext he)
    unfold isAlreadyLinked
    rw [mkBranchName_data]
    rw [matchLinked_sound hg hgl hu hul hd hdl hslug' (fun c hc => slug_chars c hc)]
  · intro hg hgl hu hul hd hdl hslug
    have hsd : (slugify title).data = [] := by rw [hslug]
    unfold isAlreadyLinked
    cases hm : matchLinked (mkBranchName gitName ⟨u ++ '-' :: d⟩ title).data with
    | none => rfl
    | some cap =>
      exfalso
      rcases matchLinked_complete hm with ⟨G, U, D, T, he, hG1, hG2, hU1, hU2, hD1, hD2, hT1, hT2, hcap⟩
      rw [mkBranchName_data, hsd] at he
      have hs1 := append_eq_of_first he
        (not_mem_of_class hgl (by decide : isLowAZ '/' = false))
        (not_mem_of_class hG2 (by decide : isLowAZ '/' = false))
      have hs2 := append_eq_of_first hs1.2
        (not_mem_of_class hul (by decide : isUpAZ '-' = false))
        (not_mem_of_class hU2 (by decide : isUpAZ '-' = false))
      have hs3 := append_eq_of_first hs2.2
        (not_mem_of_class hdl (by decide : isDigit09 '-' = false))
        (not_mem_of_class hD2 (by decide : isDigit09 '-' = false))
      exact hT1 hs3.2.symm
  · intro hu hul hd hdl hbad
    unfold isAlreadyLinked
    cases hm : matchLinked (mkBranchName gitName ⟨u ++ '-' :: d⟩ title).data with
    | none => rfl
    | some cap =>
      exfalso
      rcases matchLinked_complete hm with ⟨G, U, D, T, he, hG1, hG2, hU1, hU2, hD1, hD2, hT1, hT2, hcap⟩
      rw [mkBranchName_data] at he
      by_cases hsl : '/' ∈ gitName.data
      · rcases first_occ hsl with ⟨g1, g2, hgeq, hg1⟩
        rw [hgeq] at he
        simp only [List.append_assoc, List.cons_append] at he
        have hs1 := append_eq_of_first he hg1
          (not_mem_of_class hG2 (by decide : isLowAZ '/' = false))
        have hmem : '/' ∈ U ++ '-' :: (D ++ '-' :: T) := by
          rw [← hs1.2]
          simp
        simp only [List.mem_append, List.mem_cons] at hmem
        rcases hmem with h | h | h
        · exact absurd (hU2 '/' h) (by decide)
        · exact absurd h (by decide)
        · rcases h with h | h
          · exact absurd (hD2 '/' h) (by decide)
          · rcases h with h | h
            · exact absurd h (by decide)
            · exact absurd (hT2 '/' h) (by decide)
      · have hs1 := append_eq_of_first he hsl
          (not_mem_of_class hG2 (by decide : isLowAZ '/' = false))
        rcases hbad with ⟨c, hcm, hcbad⟩
        rw [hs1.1] at hcm
        exact hcbad (hG2 c hcm)

/-- Claim C10 witness: the positive round-trip clause applied to the
example gitName alice, identifier ENG-142, title Fix login bug. -/
theorem C10_roundtrip_witness :
    isAlreadyLinked (mkBranchName "alice" ⟨"ENG".data ++ '-' :: "142".data⟩ "Fix login bug")
      = ⟨true, some ⟨"ENG".data ++ '-' :: "142".data⟩⟩ :=
  (C10_roundtrip "alice" "ENG".data "142".data "Fix login bug").1
    (by decide) (by decide) (by decide) (by decide) (by decide) (by decide) (by decide)
